import Mathlib

/-!
Shallow embedding of `MDBEM.py` from MLS-YOLO: the Multi-Directional Boundary
Enhancement Module.  A 4-D tensor of shape (N, C, H, W) is modelled as a total
function from (batch, channel, row, column) indices to rationals; only the
entries at indices below the shape bounds are meaningful.  Slicing and
`F.pad` are modelled as index transformations, the two 1x1 convolutions and
the depthwise 3x3 convolution as the usual bias-free sums.
-/

namespace MLSYOLO

/-- A 4-D feature map, read at (batch, channel, row, column) indices. -/
abbrev Tensor4 : Type := Nat → Nat → Nat → Nat → ℚ

/-- Elementwise addition of feature maps (tensor `+`). -/
def tadd (a b : Tensor4) : Tensor4 := fun n c h w => a n c h w + b n c h w

/-- Elementwise subtraction of feature maps (tensor `-`). -/
def tsub (a b : Tensor4) : Tensor4 := fun n c h w => a n c h w - b n c h w

/-- The zero tensor, the starting value of the Python `sum` over the list of
directional differences. -/
def tzero : Tensor4 := fun _ _ _ _ => 0

/-- Semantics of `F.pad(x, (l, r, t, b), value=0)` on the last two axes: the
argument has spatial shape `(H, W)`, the result has spatial shape
`(H + t + b, W + l + r)`, carrying the argument's entries offset by the
top/left padding and zero elsewhere (the right/bottom amounts only extend the
zero region, so they do not appear in the entry formula). -/
def pad2d (x : Tensor4) (H W l r t b : Nat) : Tensor4 :=
  fun n c h w =>
    if t ≤ h ∧ h < t + H ∧ l ≤ w ∧ w < l + W then x n c (h - t) (w - l) else 0

/-- Semantics of the slice `x[:, :, 1:, :]`: drop the first row. -/
def sliceRows1 (x : Tensor4) : Tensor4 := fun n c h w => x n c (h + 1) w

/-- Semantics of the slice `x[:, :, :, 1:]`: drop the first column.  The
slices `x[:, :, :-1, :]` and `x[:, :, :, :-1]` keep the entries at unchanged
indices, so they are the identity on the carrier function and only shrink the
tracked shape. -/
def sliceCols1 (x : Tensor4) : Tensor4 := fun n c h w => x n c h (w + 1)

/-- Error taxonomy of the module (spec sections 4.1 and 7); `TypeError` is the
failure the host language raises when `shift` falls through every branch and
yields no tensor. -/
inductive MDBEMError where
  | ConfigurationError
  | ShapeMismatchError
  | TypeError
deriving DecidableEq

/-- The MDBEM module: the configured channel count and its three bias-free
weight tensors.  `conv` and `pointwise` have shape (C, C, 1, 1); the two
trailing size-1 kernel axes are dropped, so they are read as (out-channel,
in-channel) tables.  `depthwise` has shape (C, 1, 3, 3); the size-1 axis is
dropped, so it is read as a (channel, kernel-row, kernel-column) table. -/
structure MDBEM where
  in_channels : Int
  conv : Nat → Nat → ℚ
  depthwise : Nat → Nat → Nat → ℚ
  pointwise : Nat → Nat → ℚ

/-- `MDBEM.shift(x, direction)`, for `x` of spatial shape `(H, W)`: each
branch is the slice of the source composed with the matching `F.pad`; a
direction string matching no branch falls through and returns no tensor
(Python's implicit `None`). -/
def shift (x : Tensor4) (H W : Nat) (direction : String) : Option Tensor4 :=
  if direction = "up" then
    some (pad2d (sliceRows1 x) (H - 1) W 0 0 0 1)
  else if direction = "down" then
    some (pad2d x (H - 1) W 0 0 1 0)
  else if direction = "left" then
    some (pad2d (sliceCols1 x) H (W - 1) 0 1 0 0)
  else if direction = "right" then
    some (pad2d x H (W - 1) 1 0 0 0)
  else if direction = "upleft" then
    some (pad2d (sliceRows1 (sliceCols1 x)) (H - 1) (W - 1) 0 1 0 1)
  else if direction = "upright" then
    some (pad2d (sliceRows1 x) (H - 1) (W - 1) 1 0 0 1)
  else if direction = "downleft" then
    some (pad2d (sliceCols1 x) (H - 1) (W - 1) 0 1 1 0)
  else if direction = "downright" then
    some (pad2d x (H - 1) (W - 1) 1 0 1 0)
  else
    none

/-- The direction list iterated by `forward`. -/
def directions : List String :=
  ["up", "down", "left", "right", "upleft", "upright", "downleft", "downright"]

/-- Bias-free 1x1 convolution with `C` input and output channels
(`nn.Conv2d(C, C, kernel_size=1, bias=False)`): a per-pixel linear
recombination across channels.  The convolution itself lives in the external
tensor library; its standard semantics is the one the spec states in step 1
and the glossary. -/
def conv1x1 (weight : Nat → Nat → ℚ) (C : Nat) (x : Tensor4) : Tensor4 :=
  fun n co h w => ∑ ci ∈ Finset.range C, weight co ci * x n ci h w

/-- Bias-free depthwise 3x3 convolution, stride 1, zero padding 1, one filter
per channel (`nn.Conv2d(C, C, 3, padding=1, groups=C, bias=False)`), for an
input of spatial shape `(H, W)`.  The convolution itself lives in the external
tensor library; its standard semantics is the one the spec states in step 5. -/
def depthwise3x3 (weight : Nat → Nat → Nat → ℚ) (H W : Nat) (x : Tensor4) : Tensor4 :=
  fun n c h w =>
    ∑ kh ∈ Finset.range 3, ∑ kw ∈ Finset.range 3,
      weight c kh kw *
        (if 1 ≤ h + kh ∧ h + kh ≤ H ∧ 1 ≤ w + kw ∧ w + kw ≤ W
          then x n c (h + kh - 1) (w + kw - 1) else 0)

/-- The loop of `forward` that builds `boundary_feat`: for each direction,
shift `feat`, subtract the shifted copy from `feat`, collect the eight
difference maps and sum them (Python `sum` starts from `0`).  If any `shift`
fell through (impossible for the eight labels above), the whole computation
fails like the host language would. -/
def boundaryFeat (feat : Tensor4) (H W : Nat) : Option Tensor4 := do
  let direction_feats ← directions.mapM fun d =>
    (shift feat H W d).map fun shifted => tsub feat shifted
  return direction_feats.foldl tadd tzero

/-- `MDBEM.forward` on an input of shape (N, C, H, W); the batch axis is
untouched by every step, so only (C, H, W) are tracked.  The channel-count
check is modelled from the spec (sections 4.1 and 7): the source delegates it
to the external `nn.Conv2d`, which rejects an input whose channel dimension
differs from the configured count; the spec names that failure
`ShapeMismatchError` and places it before any computation. -/
def MDBEM.forward (m : MDBEM) (C H W : Nat) (x : Tensor4) : Except MDBEMError Tensor4 :=
  if (C : Int) = m.in_channels then
    let feat := conv1x1 m.conv C x
    match boundaryFeat feat H W with
    | none => .error .TypeError
    | some boundary_feat =>
      let refined_feat := conv1x1 m.pointwise C (depthwise3x3 m.depthwise H W boundary_feat)
      .ok (tadd x refined_feat)
  else
    .error .ShapeMismatchError

/-- Modelled from the spec: `MDBEM.__init__` only instantiates the three
`nn.Conv2d` submodules, and the external library rejects a non-positive
channel count at construction; the spec (sections 4.1 and 7) names that
failure `ConfigurationError`.  On success the three weight tensors have
shapes (C, C, 1, 1), (C, 1, 3, 3) and (C, C, 1, 1): they are represented as
functions supported on exactly those index ranges, carved out of arbitrary
externally-provided starting values (how the library fills them is a training
concern the spec leaves external). -/
def MDBEM.init (in_channels : Int) (conv0 : Nat → Nat → ℚ)
    (depthwise0 : Nat → Nat → Nat → ℚ) (pointwise0 : Nat → Nat → ℚ) :
    Except MDBEMError MDBEM :=
  if 0 < in_channels then
    .ok
      { in_channels := in_channels
        conv := fun co ci =>
          if co < in_channels.toNat ∧ ci < in_channels.toNat then conv0 co ci else 0
        depthwise := fun c kh kw =>
          if c < in_channels.toNat ∧ kh < 3 ∧ kw < 3 then depthwise0 c kh kw else 0
        pointwise := fun co ci =>
          if co < in_channels.toNat ∧ ci < in_channels.toNat then pointwise0 co ci else 0 }
  else
    .error .ConfigurationError

/-- Spec-side mapping of the eight direction labels to the (row, column)
offset of the cell each output cell reads, following the spec's design note
(a fixed map into the eight nonzero row/column offsets, each in -1..1) and its
border checks: the `up` shift reads one row further down, so the map moves up
and the last row zero-fills, and analogously for the other seven. -/
def dirOffset (d : String) : Option (Int × Int) :=
  if d = "up" then some (1, 0)
  else if d = "down" then some (-1, 0)
  else if d = "left" then some (0, 1)
  else if d = "right" then some (0, -1)
  else if d = "upleft" then some (1, 1)
  else if d = "upright" then some (1, -1)
  else if d = "downleft" then some (-1, 1)
  else if d = "downright" then some (-1, -1)
  else none

/-- Spec-side directional shift on an (H, W) grid: every cell takes the value
of the cell at the given row/column offset, and cells whose read position
falls outside the grid are filled with zero. -/
def specShift (dr dc : Int) (x : Tensor4) (H W : Nat) : Tensor4 :=
  fun n c h w =>
    if 0 ≤ (h : Int) + dr ∧ (h : Int) + dr < (H : Int) ∧
        0 ≤ (w : Int) + dc ∧ (w : Int) + dc < (W : Int) then
      x n c ((h : Int) + dr).toNat ((w : Int) + dc).toNat
    else 0

/-- The eight spec-side offsets, in the order `forward` iterates them. -/
def specOffsets : List (Int × Int) :=
  [(1, 0), (-1, 0), (0, 1), (0, -1), (1, 1), (1, -1), (-1, 1), (-1, -1)]

/-- Spec-side `boundary_feat`: the elementwise sum, over the eight directions,
of the difference between the feature map and its shifted copy. -/
def specBoundary (feat : Tensor4) (H W : Nat) : Tensor4 :=
  fun n c h w =>
    (specOffsets.map fun o => feat n c h w - specShift o.1 o.2 feat H W n c h w).sum

/-- The tensor `boundaryFeat` successfully computes: the left fold of `tadd`
over the eight directional differences, starting from the zero tensor. -/
def rawBoundary (feat : Tensor4) (H W : Nat) : Tensor4 :=
  tadd (tadd (tadd (tadd (tadd (tadd (tadd (tadd tzero
    (tsub feat (pad2d (sliceRows1 feat) (H - 1) W 0 0 0 1)))
    (tsub feat (pad2d feat (H - 1) W 0 0 1 0)))
    (tsub feat (pad2d (sliceCols1 feat) H (W - 1) 0 1 0 0)))
    (tsub feat (pad2d feat H (W - 1) 1 0 0 0)))
    (tsub feat (pad2d (sliceRows1 (sliceCols1 feat)) (H - 1) (W - 1) 0 1 0 1)))
    (tsub feat (pad2d (sliceRows1 feat) (H - 1) (W - 1) 1 0 0 1)))
    (tsub feat (pad2d (sliceCols1 feat) (H - 1) (W - 1) 0 1 1 0)))
    (tsub feat (pad2d feat (H - 1) (W - 1) 1 0 1 0))

/-- Spec-side `refined_feat`: depthwise filter then channel merge, applied to
the spec-side boundary aggregate of the projected feature map. -/
def specRefined (m : MDBEM) (C H W : Nat) (x : Tensor4) : Tensor4 :=
  conv1x1 m.pointwise C
    (depthwise3x3 m.depthwise H W (specBoundary (conv1x1 m.conv C x) H W))

/-- Agreement of two feature maps on every index of a (C, H, W) shape (any
batch index; the batch extent plays no role in the computation). -/
def EqOn4 (C H W : Nat) (a b : Tensor4) : Prop :=
  ∀ n c h w, c < C → h < H → w < W → a n c h w = b n c h w

/-- A concrete all-ones input used to instantiate the theorems below. -/
def cexInput : Tensor4 := fun _ _ _ _ => 1

/-- A concrete one-channel module: identity-like channel mix, a depthwise
filter that only keeps the kernel centre, and a unit channel merge. -/
def cexModule : MDBEM where
  in_channels := 1
  conv := fun _ _ => 1
  depthwise := fun _ kh kw => if kh = 1 ∧ kw = 1 then 1 else 0
  pointwise := fun _ _ => 1

/-- A concrete one-channel module whose depthwise and pointwise weights are
all zero. -/
def zeroRefineModule : MDBEM where
  in_channels := 1
  conv := fun _ _ => 1
  depthwise := fun _ _ _ => 0
  pointwise := fun _ _ => 0

/-- A concrete one-channel module whose channel-mix weight is all zero, so
the projected feature map is identically zero. -/
def zeroFeatModule : MDBEM where
  in_channels := 1
  conv := fun _ _ => 0
  depthwise := fun _ kh kw => if kh = 1 ∧ kw = 1 then 1 else 0
  pointwise := fun _ _ => 1

/-- A concrete module configured for eight channels. -/
def eightChannelModule : MDBEM where
  in_channels := 8
  conv := fun _ _ => 1
  depthwise := fun _ _ _ => 1
  pointwise := fun _ _ => 1

end MLSYOLO

namespace MLSYOLO

theorem pad_up_eq (x : Tensor4) (H W n c h w : Nat) (hh : h < H) (hw : w < W) :
    pad2d (sliceRows1 x) (H - 1) W 0 0 0 1 n c h w = specShift 1 0 x H W n c h w := by
  simp only [pad2d, sliceRows1, specShift]
  split_ifs <;> first | rfl | (exfalso; omega) | (congr 1 <;> omega)

theorem pad_down_eq (x : Tensor4) (H W n c h w : Nat) (hh : h < H) (hw : w < W) :
    pad2d x (H - 1) W 0 0 1 0 n c h w = specShift (-1) 0 x H W n c h w := by
  simp only [pad2d, specShift]
  split_ifs <;> first | rfl | (exfalso; omega) | (congr 1 <;> omega)

theorem pad_left_eq (x : Tensor4) (H W n c h w : Nat) (hh : h < H) (hw : w < W) :
    pad2d (sliceCols1 x) H (W - 1) 0 1 0 0 n c h w = specShift 0 1 x H W n c h w := by
  simp only [pad2d, sliceCols1, specShift]
  split_ifs <;> first | rfl | (exfalso; omega) | (congr 1 <;> omega)

theorem pad_right_eq (x : Tensor4) (H W n c h w : Nat) (hh : h < H) (hw : w < W) :
    pad2d x H (W - 1) 1 0 0 0 n c h w = specShift 0 (-1) x H W n c h w := by
  simp only [pad2d, specShift]
  split_ifs <;> first | rfl | (exfalso; omega) | (congr 1 <;> omega)

theorem pad_upleft_eq (x : Tensor4) (H W n c h w : Nat) (hh : h < H) (hw : w < W) :
    pad2d (sliceRows1 (sliceCols1 x)) (H - 1) (W - 1) 0 1 0 1 n c h w =
      specShift 1 1 x H W n c h w := by
  simp only [pad2d, sliceRows1, sliceCols1, specShift]
  split_ifs <;> first | rfl | (exfalso; omega) | (congr 1 <;> omega)

theorem pad_upright_eq (x : Tensor4) (H W n c h w : Nat) (hh : h < H) (hw : w < W) :
    pad2d (sliceRows1 x) (H - 1) (W - 1) 1 0 0 1 n c h w =
      specShift 1 (-1) x H W n c h w := by
  simp only [pad2d, sliceRows1, specShift]
  split_ifs <;> first | rfl | (exfalso; omega) | (congr 1 <;> omega)

theorem pad_downleft_eq (x : Tensor4) (H W n c h w : Nat) (hh : h < H) (hw : w < W) :
    pad2d (sliceCols1 x) (H - 1) (W - 1) 0 1 1 0 n c h w =
      specShift (-1) 1 x H W n c h w := by
  simp only [pad2d, sliceCols1, specShift]
  split_ifs <;> first | rfl | (exfalso; omega) | (congr 1 <;> omega)

theorem pad_downright_eq (x : Tensor4) (H W n c h w : Nat) (hh : h < H) (hw : w < W) :
    pad2d x (H - 1) (W - 1) 1 0 1 0 n c h w = specShift (-1) (-1) x H W n c h w := by
  simp only [pad2d, specShift]
  split_ifs <;> first | rfl | (exfalso; omega) | (congr 1 <;> omega)

theorem boundaryFeat_some (feat : Tensor4) (H W : Nat) :
    boundaryFeat feat H W = some (rawBoundary feat H W) := rfl

theorem rawBoundary_eq_spec (feat : Tensor4) (H W n c h w : Nat)
    (hh : h < H) (hw : w < W) :
    rawBoundary feat H W n c h w = specBoundary feat H W n c h w := by
  simp only [rawBoundary, tadd, tsub, tzero, specBoundary, specOffsets, List.map_cons,
    List.map_nil, List.sum_cons, List.sum_nil]
  rw [pad_up_eq feat H W n c h w hh hw, pad_down_eq feat H W n c h w hh hw,
    pad_left_eq feat H W n c h w hh hw, pad_right_eq feat H W n c h w hh hw,
    pad_upleft_eq feat H W n c h w hh hw, pad_upright_eq feat H W n c h w hh hw,
    pad_downleft_eq feat H W n c h w hh hw, pad_downright_eq feat H W n c h w hh hw]
  ring

theorem forward_ok_raw (m : MDBEM) (C H W : Nat) (x : Tensor4)
    (hC : (C : Int) = m.in_channels) :
    m.forward C H W x =
      .ok (tadd x (conv1x1 m.pointwise C
        (depthwise3x3 m.depthwise H W (rawBoundary (conv1x1 m.conv C x) H W)))) := by
  unfold MDBEM.forward
  rw [if_pos hC]
  rfl

theorem depthwise3x3_congr (wt : Nat → Nat → Nat → ℚ) (H W : Nat) (a b : Tensor4)
    (hab : ∀ n c h w, h < H → w < W → a n c h w = b n c h w) (n c h w : Nat) :
    depthwise3x3 wt H W a n c h w = depthwise3x3 wt H W b n c h w := by
  unfold depthwise3x3
  refine Finset.sum_congr rfl fun kh _ => Finset.sum_congr rfl fun kw _ => ?_
  congr 1
  split_ifs with hg
  · exact hab n c _ _ (by omega) (by omega)
  · rfl

theorem forward_spec_aux (m : MDBEM) (C H W : Nat) (x : Tensor4)
    (hC : (C : Int) = m.in_channels) :
    ∃ r, m.forward C H W x = .ok r ∧
      ∀ n c h w, h < H → w < W →
        r n c h w = x n c h w + specRefined m C H W x n c h w := by
  refine ⟨_, forward_ok_raw m C H W x hC, ?_⟩
  intro n c h w hh hw
  simp only [tadd, specRefined]
  congr 1
  unfold conv1x1
  refine Finset.sum_congr rfl fun ci _ => ?_
  congr 1
  exact depthwise3x3_congr m.depthwise H W _ _
    (fun n2 c2 h2 w2 p q => rawBoundary_eq_spec (conv1x1 m.conv C x) H W n2 c2 h2 w2 p q)
    n ci h w

theorem conv1x1_eqOn (wt : Nat → Nat → ℚ) (C H W : Nat) (x y : Tensor4)
    (hxy : EqOn4 C H W x y) : EqOn4 C H W (conv1x1 wt C x) (conv1x1 wt C y) := by
  intro n co h w _ hh hw
  unfold conv1x1
  refine Finset.sum_congr rfl fun ci hci => ?_
  rw [hxy n ci h w (Finset.mem_range.mp hci) hh hw]

theorem specShift_eqOn (dr dc : Int) (C H W : Nat) (x y : Tensor4)
    (hxy : EqOn4 C H W x y) :
    EqOn4 C H W (specShift dr dc x H W) (specShift dr dc y H W) := by
  intro n c h w hc _ _
  unfold specShift
  split_ifs with hg
  · exact hxy n c _ _ hc (by omega) (by omega)
  · rfl

theorem specBoundary_eqOn (C H W : Nat) (x y : Tensor4) (hxy : EqOn4 C H W x y) :
    EqOn4 C H W (specBoundary x H W) (specBoundary y H W) := by
  intro n c h w hc hh hw
  simp only [specBoundary, specOffsets, List.map_cons, List.map_nil, List.sum_cons,
    List.sum_nil]
  rw [hxy n c h w hc hh hw,
    specShift_eqOn 1 0 C H W x y hxy n c h w hc hh hw,
    specShift_eqOn (-1) 0 C H W x y hxy n c h w hc hh hw,
    specShift_eqOn 0 1 C H W x y hxy n c h w hc hh hw,
    specShift_eqOn 0 (-1) C H W x y hxy n c h w hc hh hw,
    specShift_eqOn 1 1 C H W x y hxy n c h w hc hh hw,
    specShift_eqOn 1 (-1) C H W x y hxy n c h w hc hh hw,
    specShift_eqOn (-1) 1 C H W x y hxy n c h w hc hh hw,
    specShift_eqOn (-1) (-1) C H W x y hxy n c h w hc hh hw]

theorem depthwise3x3_eqOn (wt : Nat → Nat → Nat → ℚ) (C H W : Nat) (a b : Tensor4)
    (hab : EqOn4 C H W a b) :
    EqOn4 C H W (depthwise3x3 wt H W a) (depthwise3x3 wt H W b) := by
  intro n c h w hc _ _
  unfold depthwise3x3
  refine Finset.sum_congr rfl fun kh _ => Finset.sum_congr rfl fun kw _ => ?_
  congr 1
  split_ifs with hg
  · exact hab n c _ _ hc (by omega) (by omega)
  · rfl

theorem specRefined_eqOn (m : MDBEM) (C H W : Nat) (x y : Tensor4)
    (hxy : EqOn4 C H W x y) :
    EqOn4 C H W (specRefined m C H W x) (specRefined m C H W y) := by
  unfold specRefined
  exact conv1x1_eqOn m.pointwise C H W _ _
    (depthwise3x3_eqOn m.depthwise C H W _ _
      (specBoundary_eqOn C H W _ _ (conv1x1_eqOn m.conv C H W x y hxy)))

end MLSYOLO

namespace MLSYOLO

/-- C1: for every input whose channel dimension equals the configured
`in_channels`, `forward` returns exactly `input + pointwise(depthwise(boundary_feat))`
at every grid position, where `feat` is the bias-free per-pixel channel mix of
the input, `boundary_feat` is the elementwise sum over the eight directions of
`feat` minus its one-cell zero-filled shift, `depthwise` is the per-channel
3x3 stride-1 zero-padding-1 filter and `pointwise` the bias-free cross-channel
recombination. -/
theorem mdbem_forward_residual_pipeline (m : MDBEM) (C H W : Nat) (x : Tensor4)
    (hC : (C : Int) = m.in_channels) :
    ∃ r, m.forward C H W x = .ok r ∧
      ∀ n c h w, h < H → w < W →
        r n c h w = x n c h w + specRefined m C H W x n c h w :=
  forward_spec_aux m C H W x hC

/-- Witness for C1 at a concrete one-channel module and input. -/
theorem mdbem_forward_residual_pipeline_witness :
    ∃ r, cexModule.forward 1 2 2 cexInput = .ok r ∧
      ∀ n c h w, h < 2 → w < 2 →
        r n c h w = cexInput n c h w + specRefined cexModule 1 2 2 cexInput n c h w :=
  mdbem_forward_residual_pipeline cexModule 1 2 2 cexInput rfl

/-- C2: for each of the eight direction labels, `shift` returns a tensor in
which every in-range cell takes the value of the cell at that direction's
row/column offset (one cell per relevant axis, both for diagonals), and every
cell whose read position falls outside the boundary is zero-filled, not
wrapped; the `up` shift is zero-filled at the last row, and analogously for
the other seven directions. -/
theorem mdbem_shift_matches_direction (x : Tensor4) (H W : Nat) (d : String)
    (dr dc : Int) (hd : dirOffset d = some (dr, dc)) :
    ∃ s, shift x H W d = some s ∧
      ∀ n c h w, h < H → w < W → s n c h w = specShift dr dc x H W n c h w := by
  unfold dirOffset at hd
  split_ifs at hd with h1 h2 h3 h4 h5 h6 h7 h8
  · subst h1
    simp only [Option.some.injEq, Prod.mk.injEq] at hd
    obtain ⟨rfl, rfl⟩ := hd
    exact ⟨_, rfl, fun n c h w hh hw => pad_up_eq x H W n c h w hh hw⟩
  · subst h2
    simp only [Option.some.injEq, Prod.mk.injEq] at hd
    obtain ⟨rfl, rfl⟩ := hd
    exact ⟨_, rfl, fun n c h w hh hw => pad_down_eq x H W n c h w hh hw⟩
  · subst h3
    simp only [Option.some.injEq, Prod.mk.injEq] at hd
    obtain ⟨rfl, rfl⟩ := hd
    exact ⟨_, rfl, fun n c h w hh hw => pad_left_eq x H W n c h w hh hw⟩
  · subst h4
    simp only [Option.some.injEq, Prod.mk.injEq] at hd
    obtain ⟨rfl, rfl⟩ := hd
    exact ⟨_, rfl, fun n c h w hh hw => pad_right_eq x H W n c h w hh hw⟩
  · subst h5
    simp only [Option.some.injEq, Prod.mk.injEq] at hd
    obtain ⟨rfl, rfl⟩ := hd
    exact ⟨_, rfl, fun n c h w hh hw => pad_upleft_eq x H W n c h w hh hw⟩
  · subst h6
    simp only [Option.some.injEq, Prod.mk.injEq] at hd
    obtain ⟨rfl, rfl⟩ := hd
    exact ⟨_, rfl, fun n c h w hh hw => pad_upright_eq x H W n c h w hh hw⟩
  · subst h7
    simp only [Option.some.injEq, Prod.mk.injEq] at hd
    obtain ⟨rfl, rfl⟩ := hd
    exact ⟨_, rfl, fun n c h w hh hw => pad_downleft_eq x H W n c h w hh hw⟩
  · subst h8
    simp only [Option.some.injEq, Prod.mk.injEq] at hd
    obtain ⟨rfl, rfl⟩ := hd
    exact ⟨_, rfl, fun n c h w hh hw => pad_downright_eq x H W n c h w hh hw⟩

/-- Witness for C2: the `up` shift on a concrete 2x2 input. -/
theorem mdbem_shift_matches_direction_witness :
    ∃ s, shift cexInput 2 2 "up" = some s ∧
      ∀ n c h w, h < 2 → w < 2 → s n c h w = specShift 1 0 cexInput 2 2 n c h w :=
  mdbem_shift_matches_direction cexInput 2 2 "up" 1 0 rfl

/-- C3 counterexample: on a 1x1 grid every feature map is spatially constant,
so the all-ones input with an identity channel mix has spatially constant
`feat` of value 1; yet with a centre-only depthwise filter and unit pointwise
weight the output value is 9, not the input value 1, because the zero-filled
shifts make every directional difference 1 - 0 = 1 at the border rather than
zero.  This falsifies the claim that a spatially constant `feat` forces the
output to equal the input. -/
theorem mdbem_flat_feat_cex :
    conv1x1 cexModule.conv 1 cexInput 0 0 0 0 = 1 ∧
    (cexModule.forward 1 1 1 cexInput).map (fun r => r 0 0 0 0) = .ok 9 ∧
    cexInput 0 0 0 0 = 1 := by
  refine ⟨by norm_num [conv1x1, cexModule, cexInput], ?_, rfl⟩
  rw [forward_ok_raw cexModule 1 1 1 cexInput rfl]
  norm_num [Except.map, tadd, tsub, tzero, conv1x1, depthwise3x3, pad2d, sliceRows1,
    sliceCols1, rawBoundary, Finset.sum_range_succ, cexModule, cexInput]

/-- C3 as amended: if the projected feature map `feat` is spatially constant
with value zero (identically zero), then every directional difference is zero,
`boundary_feat` is zero, `refined_feat` is zero (no bias terms anywhere), and
`forward` returns the input exactly.  (The unamended claim fails for nonzero
constants because the zero-filled shifts leave nonzero differences along the
border.) -/
theorem mdbem_zero_feat_identity (m : MDBEM) (C H W : Nat) (x : Tensor4)
    (hC : (C : Int) = m.in_channels)
    (hfeat : ∀ n c h w, conv1x1 m.conv C x n c h w = 0) :
    m.forward C H W x = .ok x := by
  rw [forward_ok_raw m C H W x hC]
  have h1 : ∀ n c h w, rawBoundary (conv1x1 m.conv C x) H W n c h w = 0 := by
    intro n c h w
    simp [rawBoundary, tadd, tsub, tzero, pad2d, sliceRows1, sliceCols1, hfeat]
  have h2 : ∀ n c h w, depthwise3x3 m.depthwise H W
      (rawBoundary (conv1x1 m.conv C x) H W) n c h w = 0 := by
    intro n c h w
    simp [depthwise3x3, h1]
  have h3 : ∀ n c h w, conv1x1 m.pointwise C (depthwise3x3 m.depthwise H W
      (rawBoundary (conv1x1 m.conv C x) H W)) n c h w = 0 := by
    intro n c h w
    simp [conv1x1, h2]
  congr 1
  funext n c h w
  simp [tadd, h3]

/-- Witness for the amended C3: a module whose channel-mix weight is zero. -/
theorem mdbem_zero_feat_identity_witness :
    zeroFeatModule.forward 1 2 2 cexInput = .ok cexInput :=
  mdbem_zero_feat_identity zeroFeatModule 1 2 2 cexInput rfl
    (fun n c h w => by simp [conv1x1, zeroFeatModule])

/-- C4: for every input whose channel dimension equals the configured count,
`forward` succeeds with an output tensor, and that output, read on the
(C, H, W) index range of the input shape, is fully determined by the input's
entries on that same range: the output is a well-defined feature map of
exactly the input's shape. -/
theorem mdbem_forward_shape (m : MDBEM) (C H W : Nat) (x : Tensor4)
    (hC : (C : Int) = m.in_channels) :
    (∃ r, m.forward C H W x = .ok r) ∧
    ∀ x2 r r2, EqOn4 C H W x x2 → m.forward C H W x = .ok r →
      m.forward C H W x2 = .ok r2 → EqOn4 C H W r r2 := by
  obtain ⟨r, hr, hval⟩ := forward_spec_aux m C H W x hC
  refine ⟨⟨r, hr⟩, ?_⟩
  intro x2 r0 r2 hx hr0 hr2
  obtain ⟨r2b, hr2b, hval2⟩ := forward_spec_aux m C H W x2 hC
  rw [hr] at hr0
  injection hr0 with e0
  rw [hr2b] at hr2
  injection hr2 with e2
  subst e0
  subst e2
  intro n c h w hc hh hw
  rw [hval n c h w hh hw, hval2 n c h w hh hw, hx n c h w hc hh hw,
    specRefined_eqOn m C H W x x2 hx n c h w hc hh hw]

/-- Witness for C4 at a concrete one-channel module and input. -/
theorem mdbem_forward_shape_witness :
    (∃ r, cexModule.forward 1 1 1 cexInput = .ok r) ∧
    ∀ x2 r r2, EqOn4 1 1 1 cexInput x2 → cexModule.forward 1 1 1 cexInput = .ok r →
      cexModule.forward 1 1 1 x2 = .ok r2 → EqOn4 1 1 1 r r2 :=
  mdbem_forward_shape cexModule 1 1 1 cexInput rfl

/-- C5: whenever the input channel dimension differs from the configured
`in_channels`, `forward` fails with `ShapeMismatchError` and produces no
output value at all. -/
theorem mdbem_shape_mismatch (m : MDBEM) (C H W : Nat) (x : Tensor4)
    (hne : (C : Int) ≠ m.in_channels) :
    m.forward C H W x = .error .ShapeMismatchError := by
  unfold MDBEM.forward
  rw [if_neg hne]

/-- Witness for C5: an eight-channel module applied to a four-channel input. -/
theorem mdbem_shape_mismatch_witness :
    eightChannelModule.forward 4 3 3 cexInput = .error .ShapeMismatchError :=
  mdbem_shape_mismatch eightChannelModule 4 3 3 cexInput (by decide)

/-- C6: construction rejects every non-positive channel count with
`ConfigurationError`, and for every positive integer count it succeeds,
producing a module whose three weight tensors are supported exactly on the
shapes (C, C, 1, 1), (C, 1, 3, 3) and (C, C, 1, 1). -/
theorem mdbem_init_validates (Cin : Int) (c0 : Nat → Nat → ℚ)
    (d0 : Nat → Nat → Nat → ℚ) (p0 : Nat → Nat → ℚ) :
    (Cin ≤ 0 → MDBEM.init Cin c0 d0 p0 = .error .ConfigurationError) ∧
    (0 < Cin →
      ∃ m, MDBEM.init Cin c0 d0 p0 = .ok m ∧ m.in_channels = Cin ∧
        (∀ co ci, ¬(co < Cin.toNat ∧ ci < Cin.toNat) → m.conv co ci = 0) ∧
        (∀ c kh kw, ¬(c < Cin.toNat ∧ kh < 3 ∧ kw < 3) → m.depthwise c kh kw = 0) ∧
        (∀ co ci, ¬(co < Cin.toNat ∧ ci < Cin.toNat) → m.pointwise co ci = 0)) := by
  constructor
  · intro hle
    unfold MDBEM.init
    rw [if_neg (by omega)]
  · intro hpos
    refine ⟨{ in_channels := Cin
              conv := fun co ci =>
                if co < Cin.toNat ∧ ci < Cin.toNat then c0 co ci else 0
              depthwise := fun c kh kw =>
                if c < Cin.toNat ∧ kh < 3 ∧ kw < 3 then d0 c kh kw else 0
              pointwise := fun co ci =>
                if co < Cin.toNat ∧ ci < Cin.toNat then p0 co ci else 0 },
      ?_, rfl, ?_, ?_, ?_⟩
    · unfold MDBEM.init
      rw [if_pos hpos]
    · intro co ci hn
      exact if_neg hn
    · intro c kh kw hn
      exact if_neg hn
    · intro co ci hn
      exact if_neg hn

/-- Witness for C6 at the concrete counts 0 (rejected) and 3 (accepted). -/
theorem mdbem_init_validates_witness :
    (MDBEM.init 0 (fun _ _ => 1) (fun _ _ _ => 1) (fun _ _ => 1) =
      .error .ConfigurationError) ∧
    (∃ m, MDBEM.init 3 (fun _ _ => 1) (fun _ _ _ => 1) (fun _ _ => 1) = .ok m ∧
      m.in_channels = 3 ∧
      (∀ co ci, ¬(co < (3 : Int).toNat ∧ ci < (3 : Int).toNat) → m.conv co ci = 0) ∧
      (∀ c kh kw, ¬(c < (3 : Int).toNat ∧ kh < 3 ∧ kw < 3) → m.depthwise c kh kw = 0) ∧
      (∀ co ci, ¬(co < (3 : Int).toNat ∧ ci < (3 : Int).toNat) → m.pointwise co ci = 0)) :=
  ⟨(mdbem_init_validates 0 (fun _ _ => 1) (fun _ _ _ => 1) (fun _ _ => 1)).1 (by omega),
    (mdbem_init_validates 3 (fun _ _ => 1) (fun _ _ _ => 1) (fun _ _ => 1)).2 (by omega)⟩

/-- C7: when the depthwise weight tensor and the pointwise weight tensor are
both all-zero, `refined_feat` is zero everywhere (regardless of the
channel-mix weight) and `forward` returns the input unchanged. -/
theorem mdbem_zero_weights_identity (m : MDBEM) (C H W : Nat) (x : Tensor4)
    (hC : (C : Int) = m.in_channels)
    (hdw : ∀ c kh kw, m.depthwise c kh kw = 0)
    (hpw : ∀ co ci, m.pointwise co ci = 0) :
    m.forward C H W x = .ok x := by
  rw [forward_ok_raw m C H W x hC]
  have h3 : ∀ n c h w, conv1x1 m.pointwise C (depthwise3x3 m.depthwise H W
      (rawBoundary (conv1x1 m.conv C x) H W)) n c h w = 0 := by
    intro n c h w
    simp [conv1x1, depthwise3x3, hpw, hdw]
  congr 1
  funext n c h w
  simp [tadd, h3]

/-- Witness for C7: a module with zero depthwise and pointwise weights. -/
theorem mdbem_zero_weights_identity_witness :
    zeroRefineModule.forward 1 2 2 cexInput = .ok cexInput :=
  mdbem_zero_weights_identity zeroRefineModule 1 2 2 cexInput rfl
    (fun _ _ _ => rfl) (fun _ _ => rfl)

/-- C8: `forward` is deterministic: for fixed values of the three weight
tensors (and the configured channel count) it is a pure function of the
input, so any two modules carrying equal weights map the same input to the
identical output, with no hidden state. -/
theorem mdbem_forward_deterministic (m m2 : MDBEM) (C H W : Nat) (x : Tensor4)
    (hin : m.in_channels = m2.in_channels) (hc : m.conv = m2.conv)
    (hd : m.depthwise = m2.depthwise) (hp : m.pointwise = m2.pointwise) :
    m.forward C H W x = m2.forward C H W x := by
  obtain ⟨a1, a2, a3, a4⟩ := m
  obtain ⟨b1, b2, b3, b4⟩ := m2
  simp only at hin hc hd hp
  subst hin
  subst hc
  subst hd
  subst hp
  rfl

/-- Witness for C8: two calls with the same module and input agree. -/
theorem mdbem_forward_deterministic_witness :
    cexModule.forward 1 1 1 cexInput = cexModule.forward 1 1 1 cexInput :=
  mdbem_forward_deterministic cexModule cexModule 1 1 1 cexInput rfl rfl rfl rfl

/-- C9: on a degenerate 1x1 grid, each of the eight shifted copies of `feat`
is zero at the single spatial position (every shift reads outside the
boundary), so `boundary_feat` there equals eight times `feat`. -/
theorem mdbem_degenerate_1x1 (feat : Tensor4) (n c : Nat) :
    ((shift feat 1 1 "up").map fun s => s n c 0 0) = some 0 ∧
    ((shift feat 1 1 "down").map fun s => s n c 0 0) = some 0 ∧
    ((shift feat 1 1 "left").map fun s => s n c 0 0) = some 0 ∧
    ((shift feat 1 1 "right").map fun s => s n c 0 0) = some 0 ∧
    ((shift feat 1 1 "upleft").map fun s => s n c 0 0) = some 0 ∧
    ((shift feat 1 1 "upright").map fun s => s n c 0 0) = some 0 ∧
    ((shift feat 1 1 "downleft").map fun s => s n c 0 0) = some 0 ∧
    ((shift feat 1 1 "downright").map fun s => s n c 0 0) = some 0 ∧
    ((boundaryFeat feat 1 1).map fun b => b n c 0 0) = some (8 * feat n c 0 0) := by
  refine ⟨?_, ?_, ?_, ?_, ?_, ?_, ?_, ?_, ?_⟩
  · simp [shift, pad2d, sliceRows1]
  · simp [shift, pad2d]
  · simp [shift, pad2d, sliceCols1]
  · simp [shift, pad2d]
  · simp [shift, pad2d, sliceRows1, sliceCols1]
  · simp [shift, pad2d, sliceRows1]
  · simp [shift, pad2d, sliceCols1]
  · simp [shift, pad2d]
  · rw [boundaryFeat_some]
    simp [rawBoundary, tadd, tsub, tzero, pad2d, sliceRows1, sliceCols1]
    ring

/-- C10: `shift` yields no tensor exactly on the direction strings outside
the eight recognised labels, and for the labels `forward` actually iterates
the fall-through is unreachable: the boundary aggregation always produces a
tensor. -/
theorem mdbem_shift_fallthrough (x : Tensor4) (H W : Nat) (d : String) :
    (shift x H W d = none ↔ d ∉ directions) ∧
    ∀ feat : Tensor4, (boundaryFeat feat H W).isSome = true := by
  constructor
  · unfold shift
    split_ifs with h1 h2 h3 h4 h5 h6 h7 h8 <;> simp_all [directions]
  · intro feat
    rw [boundaryFeat_some]
    rfl

/-- Witness for C10 at a concrete unrecognised direction string. -/
theorem mdbem_shift_fallthrough_witness :
    (shift cexInput 2 2 "diagonal" = none ↔ "diagonal" ∉ directions) ∧
    ∀ feat : Tensor4, (boundaryFeat feat 2 2).isSome = true :=
  mdbem_shift_fallthrough cexInput 2 2 "diagonal"

end MLSYOLO
